import Mathlib

/-!
Verification of the two-tier LRU cache `ldbcache` (file `ldbcache.py`).

The cache keeps live values in a bounded in-memory LRU (`ramcache`, the
Memory Tier), spills evicted entries to a LevelDB store (`ldb`, the
Persistent Store), and tracks which keys live on disk in a second bounded
LRU of sentinels (`dbcache`, the Ghost Tier).

The embedding is a shallow one:

* Each pylru `lrucache` is modelled as a list of entries ordered from
  most- to least-recently used, following the Bounded Recency Map
  contract: `cache[key] = value` on a present key updates the value and
  moves it to the front without eviction; on a new key it inserts at the
  front and, when the cache is full, first invokes the eviction callback
  on the least-recently-used pair (the last element) and drops it.
  `cache[key]` on a hit moves the entry to the front; `in` and iteration
  do not change the order; `del` on a present key removes it without
  invoking the callback; `del`/`[]` on a missing key signal `KeyError`.
* The LevelDB handle is modelled as a partial map `K → Option B` together
  with a chronological log of the store operations performed (`Put`,
  `Get`, `Delete`).  `Get` on a missing key signals `KeyError`; `Delete`
  is idempotent; `Put` overwrites.
* The caller-supplied codec is a pair `enc : V → B` (`marshal`) and
  `dec : B → Option V` (`unmarshal`); `dec b = none` models `unmarshal`
  raising on the bytes `b`.
* Exceptions are modelled by the result type `Res`.

Every public operation of `ldbcache` is translated line by line into a
pure state transformer on `LDB`.
-/

namespace Ldbcache

/-- A primitive operation performed on the persistent store, recorded in
chronological order: `ldb.Put`, `ldb.Get`, `ldb.Delete`. -/
inductive StoreOp (K B : Type) where
  | put (k : K) (b : B)
  | get (k : K)
  | del (k : K)
deriving DecidableEq

/-- Result of a fallible cache operation: a returned value, a `KeyError`
(`notFound`), or a failure of the caller-supplied decode function
(`decodeErr`). -/
inductive Res (V : Type) where
  | ok (v : V)
  | notFound
  | decodeErr
deriving DecidableEq

/-- The full state of an `ldbcache` instance: the two LRU tier contents
(most-recently-used first), the persistent store contents, the configured
capacities, and the chronological log of store operations. -/
structure LDB (K V B : Type) where
  ramsize : Nat
  dbsize : Nat
  ram : List (K × V)
  db : List K
  store : K → Option B
  evs : List (StoreOp K B)

variable {K V B : Type} [DecidableEq K]

/-- `ldb.Put` as a map update (LevelDB `Put` overwrites). -/
def storePut (s : K → Option B) (k : K) (b : B) : K → Option B :=
  fun q => if q = k then some b else s q

/-- `ldb.Delete` as a map update (LevelDB `Delete` is idempotent). -/
def storeErase (s : K → Option B) (k : K) : K → Option B :=
  fun q => if q = k then none else s q

/-- `self.ldb.Put(k, b)` with its log entry. -/
def ldbPut (c : LDB K V B) (k : K) (b : B) : LDB K V B :=
  { c with store := storePut c.store k b, evs := c.evs ++ [StoreOp.put k b] }

/-- `self.ldb.Delete(k)` with its log entry. -/
def ldbDelete (c : LDB K V B) (k : K) : LDB K V B :=
  { c with store := storeErase c.store k, evs := c.evs ++ [StoreOp.del k] }

/-- `self.ldb.Get(k)` with its log entry; `none` models the `KeyError`
LevelDB raises on a missing key. -/
def ldbGetLog (c : LDB K V B) (k : K) : Option B × LDB K V B :=
  (c.store k, { c with evs := c.evs ++ [StoreOp.get k] })

/-- The keys currently held by the Memory Tier. -/
def ramKeys (c : LDB K V B) : List K := c.ram.map Prod.fst

/-- Removal of the entry for `k` from an LRU entry list (the node removal
performed by pylru's `__delitem__` and by a move-to-front). -/
def ramErase (l : List (K × V)) (k : K) : List (K × V) :=
  l.eraseP (fun p => decide (p.1 = k))

/-- pylru lookup on the entry list: the value stored under `k`, if any. -/
def lookupV (l : List (K × V)) (k : K) : Option V :=
  (l.find? (fun p => decide (p.1 = k))).map Prod.snd

/-- `self.dbcache[key] = 1` — insertion into the Ghost Tier pylru cache.
On a present key the entry moves to the front; on a new key it is
inserted at the front, and if the Ghost Tier is full its least-recently-
used key is first evicted, invoking `_onRemoveFromDB`, i.e.
`self.ldb.Delete(evicted)`. -/
def dbcacheSet (c : LDB K V B) (k : K) : LDB K V B :=
  if k ∈ c.db then
    { c with db := k :: c.db.erase k }
  else if c.db.length < c.dbsize then
    { c with db := k :: c.db }
  else
    match c.db.getLast? with
    | none => { c with db := [k] }
    | some e => { ldbDelete c e with db := k :: c.db.dropLast }

/-- `_onRemoveFromRam(key, val)` — the Memory Tier eviction hook:
`self.dbcache[key] = 1` followed by `self.ldb.Put(key, self.marshal(val))`
(in that order, as in the source). -/
def onRemoveFromRam (enc : V → B) (c : LDB K V B) (k : K) (v : V) : LDB K V B :=
  ldbPut (dbcacheSet c k) k (enc v)

/-- `self.ramcache[key] = value` — insertion into the Memory Tier pylru
cache.  On a present key the value is replaced and the entry moves to the
front; on a new key it is inserted at the front, and if the Memory Tier
is full its least-recently-used pair is first evicted, invoking
`_onRemoveFromRam`. -/
def ramcacheSet (enc : V → B) (c : LDB K V B) (k : K) (v : V) : LDB K V B :=
  if k ∈ ramKeys c then
    { c with ram := (k, v) :: ramErase c.ram k }
  else if c.ram.length < c.ramsize then
    { c with ram := (k, v) :: c.ram }
  else
    match c.ram.getLast? with
    | none => { c with ram := [(k, v)] }
    | some e => { onRemoveFromRam enc c e.1 e.2 with ram := (k, v) :: c.ram.dropLast }

/-- `__setitem__(key, value)`: if the key is in the Ghost Tier, remove it
there (`del self.dbcache[key]`) and delete its persisted record
(`self.ldb.Delete(key)`); then `self.ramcache[key] = value`.  (The
`isinstance` key-type guard is outside the opaque-key model: all modelled
keys are valid.) -/
def setOp (enc : V → B) (c : LDB K V B) (k : K) (v : V) : LDB K V B :=
  let c1 := if k ∈ c.db then ldbDelete { c with db := c.db.erase k } k else c
  ramcacheSet enc c1 k v

/-- `__getitem__(key)`: try the Memory Tier (a hit refreshes recency);
otherwise `del self.dbcache[key]` (raising `KeyError` when the key is in
neither tier), `data = self.ldb.Get(key)`, `val = self.unmarshal(data)`
(whose failure propagates), `self.ldb.Delete(key)`, and
`self.ramcache[key] = val` (which may trigger an eviction cascade). -/
def getItem (enc : V → B) (dec : B → Option V) (c : LDB K V B) (k : K) :
    Res V × LDB K V B :=
  match lookupV c.ram k with
  | some v => (Res.ok v, { c with ram := (k, v) :: ramErase c.ram k })
  | none =>
    if k ∈ c.db then
      let c1 := { c with db := c.db.erase k }
      match ldbGetLog c1 k with
      | (none, c2) => (Res.notFound, c2)
      | (some b, c2) =>
        match dec b with
        | none => (Res.decodeErr, c2)
        | some v => (Res.ok v, ramcacheSet enc (ldbDelete c2 k) k v)
    else (Res.notFound, c)

/-- `get(key, default=None)`: `self[key]`, with `KeyError` caught and the
supplied default returned; any other failure (a decode error) propagates. -/
def getOp (enc : V → B) (dec : B → Option V) (c : LDB K V B) (k : K) (d : V) :
    Res V × LDB K V B :=
  match getItem enc dec c k with
  | (Res.notFound, c2) => (Res.ok d, c2)
  | r => r

/-- `__delitem__(key)` exactly as written in the source: `del
self.ramcache[key]`, and on `KeyError` the handler again runs `del
self.ramcache[key]` — which raises `KeyError` once more, so the
`self.ldb.Delete(key)` on the next line is unreachable and the Ghost
Tier branch never executes. -/
def delOp (c : LDB K V B) (k : K) : Res Unit × LDB K V B :=
  if k ∈ ramKeys c then
    (Res.ok (), { c with ram := ramErase c.ram k })
  else
    (Res.notFound, c)

/-- `clear(ramonly=False)` (the second, effective definition in the
source): empty the Memory Tier; unless `ramonly`, also delete every
Ghost Tier key's record from the store and empty the Ghost Tier. -/
def clearOp (c : LDB K V B) (ramonly : Bool) : LDB K V B :=
  if ramonly then { c with ram := [] }
  else
    let c1 := c.db.foldl ldbDelete c
    { c1 with ram := [], db := [] }

/-- One step of `flush()`'s loop body for the pair `(key, val)`:
`self.dbcache[key] = 1` then `self.ldb.Put(key, self.marshal(val))`. -/
def flushStep (enc : V → B) (c : LDB K V B) (p : K × V) : LDB K V B :=
  ldbPut (dbcacheSet c p.1) p.1 (enc p.2)

/-- `flush()`: iterate over the Memory Tier entries from most- to
least-recently used, registering each key in the Ghost Tier and writing
its record to the store, then `self.ramcache.clear()`. -/
def flushOp (enc : V → B) (c : LDB K V B) : LDB K V B :=
  { c.ram.foldl (flushStep enc) c with ram := [] }

/-- The public operations of the cache.  `iter` covers `__iter__`,
`keys`, `values` and `items`: iteration reads both tiers (and, for
values, the store) but never mutates the tier contents or the store, so
on the modelled state it is the identity. -/
inductive Op (K V : Type) where
  | set (k : K) (v : V)
  | get (k : K)
  | del (k : K)
  | flush
  | clear (ramonly : Bool)
  | iter

/-- Apply one public operation to the cache state (discarding the value
returned to the caller). -/
def applyOp (enc : V → B) (dec : B → Option V) (c : LDB K V B) : Op K V → LDB K V B
  | Op.set k v => setOp enc c k v
  | Op.get k => (getItem enc dec c k).2
  | Op.del k => (delOp c k).2
  | Op.flush => flushOp enc c
  | Op.clear b => clearOp c b
  | Op.iter => c

/-- Run a sequence of public operations from a given state. -/
def runOps (enc : V → B) (dec : B → Option V) (c : LDB K V B)
    (ops : List (Op K V)) : LDB K V B :=
  ops.foldl (applyOp enc dec) c

/-- The state of a freshly constructed cache (`cleardb=True`): both tiers
empty, the store wiped, capacities as configured. -/
def initState (rs ds : Nat) : LDB K V B :=
  { ramsize := rs, dbsize := ds, ram := [], db := [], store := fun _ => none,
    evs := [] }

/-- The structural well-formedness the cache maintains: no duplicate keys
inside either tier, the tiers are disjoint, and both tiers respect their
configured capacities. -/
def Inv (c : LDB K V B) : Prop :=
  (ramKeys c).Nodup ∧ c.db.Nodup ∧
  (∀ k, k ∈ ramKeys c → k ∉ c.db) ∧
  c.ram.length ≤ c.ramsize ∧ c.db.length ≤ c.dbsize

/-- Five consecutive `set`s on a freshly constructed cache with
`ramsize = 2` and `dbsize = 2` (the cascade-correctness scenario of the
specification). -/
def fiveSets (enc : V → B) (k1 k2 k3 k4 k5 : K) (v1 v2 v3 v4 v5 : V) : LDB K V B :=
  setOp enc (setOp enc (setOp enc (setOp enc (setOp enc
    (initState 2 2) k1 v1) k2 v2) k3 v3) k4 v4) k5 v5

/-! ### Concrete instances used in the examples

`Nat` keys, values and byte representations, with the identity codec
(and a variant whose decode function fails on the byte value `99`,
modelling a corrupt record). -/

/-- Identity `marshal` on `Nat` values. -/
def natEnc : Nat → Nat := fun v => v

/-- Total `unmarshal` inverting `natEnc`. -/
def natDec : Nat → Option Nat := some

/-- An `unmarshal` that raises on the byte value `99`. -/
def natDecFragile : Nat → Option Nat := fun b => if b = 99 then none else some b

/-- ramsize 2, dbsize 2, after `set 1 10; set 2 20; set 3 30`: Memory Tier
`[3, 2]`, Ghost Tier `[1]`, record for key 1 in the store. -/
def exC3 : LDB Nat Nat Nat :=
  runOps natEnc natDec (initState 2 2) [Op.set 1 10, Op.set 2 20, Op.set 3 30]

/-- ramsize 2, dbsize 2, after `set 5 99; set 6 1; set 7 2`: key 5 sits in
the Ghost Tier with the undecodable record `99` in the store. -/
def exC4 : LDB Nat Nat Nat :=
  runOps natEnc natDecFragile (initState 2 2) [Op.set 5 99, Op.set 6 1, Op.set 7 2]

/-- A state with a full Ghost Tier (dbsize 1 holding key 7, with its
record persisted) about to receive an eviction from the full Memory
Tier. -/
def exC5 : LDB Nat Nat Nat :=
  { ramsize := 2, dbsize := 1, ram := [(9, 90)], db := [7],
    store := fun q => if q = 7 then some 70 else none, evs := [] }

/-- ramsize 2, dbsize 1, after `set 1 10; set 2 20; set 3 30`: the next
`set` evicts a pair into the already-full Ghost Tier. -/
def exC5run : LDB Nat Nat Nat :=
  runOps natEnc natDec (initState 2 1) [Op.set 1 10, Op.set 2 20, Op.set 3 30]

/-- ramsize 2 but dbsize only 1, Memory Tier holding two entries: flushing
overflows the Ghost Tier. -/
def exC8 : LDB Nat Nat Nat :=
  runOps natEnc natDec (initState 2 1) [Op.set 1 10, Op.set 2 20]

/-- ramsize 2, dbsize 2, Memory Tier holding two entries: flushing fits
into the Ghost Tier. -/
def exC8w : LDB Nat Nat Nat :=
  runOps natEnc natDec (initState 2 2) [Op.set 1 10, Op.set 2 20]

/-! ### Basic lemmas about the store and the LRU entry lists -/

theorem storePut_self (s : K → Option B) (k : K) (b : B) :
    storePut s k b k = some b := by
  simp [storePut]

theorem storePut_other (s : K → Option B) (k q : K) (b : B) (h : q ≠ k) :
    storePut s k b q = s q := by
  simp [storePut, h]

theorem storeErase_other (s : K → Option B) (k q : K) (h : q ≠ k) :
    storeErase s k q = s q := by
  simp [storeErase, h]

theorem keys_ramErase (l : List (K × V)) (k : K) :
    (ramErase l k).map Prod.fst = (l.map Prod.fst).erase k := by
  induction l with
  | nil => rfl
  | cons a t ih =>
    by_cases h : a.1 = k
    · simp [ramErase, List.eraseP_cons, h, List.erase_cons]
    · simp only [ramErase, List.eraseP_cons, decide_eq_true_eq, h, decide_False,
        cond_false, List.map_cons, List.erase_cons, beq_iff_eq, if_neg h]
      exact congrArg _ ih

theorem length_ramErase (l : List (K × V)) (k : K) (h : k ∈ l.map Prod.fst) :
    (ramErase l k).length = l.length - 1 := by
  have h1 : ((ramErase l k).map Prod.fst).length = ((l.map Prod.fst).erase k).length :=
    congrArg _ (keys_ramErase l k)
  simpa [List.length_map, List.length_erase_of_mem h] using h1

theorem lookupV_eq_none (l : List (K × V)) (k : K) (h : k ∉ l.map Prod.fst) :
    lookupV l k = none := by
  have : l.find? (fun p => decide (p.1 = k)) = none := by
    rw [List.find?_eq_none]
    intro a ha hpa
    exact h (List.mem_map.2 ⟨a, ha, of_decide_eq_true hpa⟩)
  simp [lookupV, this]

theorem lookupV_cons_self (l : List (K × V)) (k : K) (v : V) :
    lookupV ((k, v) :: l) k = some v := by
  simp [lookupV, List.find?_cons_of_pos]

theorem mem_keys_of_lookupV (l : List (K × V)) (k : K) (v : V)
    (h : lookupV l k = some v) : k ∈ l.map Prod.fst := by
  unfold lookupV at h
  rcases hf : l.find? (fun p => decide (p.1 = k)) with _ | a
  · rw [hf] at h; simp at h
  · have ha : a ∈ l := List.mem_of_find?_eq_some hf
    have hpa := List.find?_some hf
    have hk : a.1 = k := by simpa using hpa
    exact List.mem_map.2 ⟨a, ha, hk⟩

/-! ### Branch characterizations of the two LRU insertions -/

/-- Ghost Tier insertion on a key already present: pure move-to-front. -/
theorem dbcacheSet_mem (c : LDB K V B) (k : K) (h : k ∈ c.db) :
    dbcacheSet c k = { c with db := k :: c.db.erase k } := by
  simp [dbcacheSet, h]

/-- Ghost Tier insertion on a new key: the three possible shapes (room
left; full, evicting the last key via `_onRemoveFromDB`; the degenerate
cap-0-and-empty shape that a positive capacity rules out). -/
theorem dbcacheSet_cases (c : LDB K V B) (k : K) (hk : k ∉ c.db) :
    (c.db.length < c.dbsize ∧ dbcacheSet c k = { c with db := k :: c.db }) ∨
    (¬ c.db.length < c.dbsize ∧ ∃ d e, c.db = d ++ [e] ∧
      dbcacheSet c k = { c with db := k :: d, store := storeErase c.store e,
                                evs := c.evs ++ [StoreOp.del e] }) ∨
    (¬ c.db.length < c.dbsize ∧ c.db = [] ∧ dbcacheSet c k = { c with db := [k] }) := by
  by_cases hfull : c.db.length < c.dbsize
  · exact Or.inl ⟨hfull, by simp [dbcacheSet, hk, hfull]⟩
  · rcases List.eq_nil_or_concat c.db with hnil | ⟨d, e, hde⟩
    · refine Or.inr (Or.inr ⟨hfull, hnil, ?_⟩)
      simp [dbcacheSet, hk, hfull, hnil]
    · rw [List.concat_eq_append] at hde
      refine Or.inr (Or.inl ⟨hfull, d, e, hde, ?_⟩)
      unfold dbcacheSet
      rw [if_neg hk, if_neg hfull, hde, List.getLast?_concat]
      simp [List.dropLast_concat, ldbDelete]

/-- Memory Tier insertion: the four possible shapes (present key updated
in place; room left; full, evicting the last pair via `_onRemoveFromRam`;
the degenerate cap-0-and-empty shape). -/
theorem ramcacheSet_cases (enc : V → B) (c : LDB K V B) (k : K) (v : V) :
    (k ∈ ramKeys c ∧
      ramcacheSet enc c k v = { c with ram := (k, v) :: ramErase c.ram k }) ∨
    (k ∉ ramKeys c ∧ c.ram.length < c.ramsize ∧
      ramcacheSet enc c k v = { c with ram := (k, v) :: c.ram }) ∨
    (k ∉ ramKeys c ∧ ¬ c.ram.length < c.ramsize ∧ ∃ r e, c.ram = r ++ [e] ∧
      ramcacheSet enc c k v = { onRemoveFromRam enc c e.1 e.2 with ram := (k, v) :: r }) ∨
    (k ∉ ramKeys c ∧ ¬ c.ram.length < c.ramsize ∧ c.ram = [] ∧
      ramcacheSet enc c k v = { c with ram := [(k, v)] }) := by
  by_cases hmem : k ∈ ramKeys c
  · exact Or.inl ⟨hmem, by simp [ramcacheSet, hmem]⟩
  · by_cases hfull : c.ram.length < c.ramsize
    · exact Or.inr (Or.inl ⟨hmem, hfull, by simp [ramcacheSet, hmem, hfull]⟩)
    · rcases List.eq_nil_or_concat c.ram with hnil | ⟨r, e, hre⟩
      · refine Or.inr (Or.inr (Or.inr ⟨hmem, hfull, hnil, ?_⟩))
        simp [ramcacheSet, hmem, hfull, hnil]
      · rw [List.concat_eq_append] at hre
        refine Or.inr (Or.inr (Or.inl ⟨hmem, hfull, r, e, hre, ?_⟩))
        unfold ramcacheSet
        rw [if_neg hmem, if_neg hfull, hre, List.getLast?_concat]
        simp [List.dropLast_concat]

/-! ### Preservation of the well-formedness invariant -/

/-- Ghost Tier insertion preserves Ghost Tier well-formedness, leaves the
Memory Tier and the capacities untouched, registers the key, and adds no
key other than the inserted one. -/
theorem dbcacheSet_spec (c : LDB K V B) (k : K)
    (hpos : 0 < c.dbsize) (hnd : c.db.Nodup) (hlen : c.db.length ≤ c.dbsize) :
    (dbcacheSet c k).ram = c.ram ∧ (dbcacheSet c k).ramsize = c.ramsize ∧
    (dbcacheSet c k).dbsize = c.dbsize ∧ (dbcacheSet c k).db.Nodup ∧
    (dbcacheSet c k).db.length ≤ c.dbsize ∧ k ∈ (dbcacheSet c k).db ∧
    (∀ x ∈ (dbcacheSet c k).db, x = k ∨ x ∈ c.db) := by
  by_cases hmem : k ∈ c.db
  · rw [dbcacheSet_mem c k hmem]
    refine ⟨rfl, rfl, rfl, ?_, ?_, List.mem_cons_self k _, ?_⟩
    · exact List.nodup_cons.2 ⟨fun hx => ((hnd.mem_erase_iff).1 hx).1 rfl, hnd.erase k⟩
    · have h1 : (c.db.erase k).length = c.db.length - 1 := List.length_erase_of_mem hmem
      have h2 : 0 < c.db.length := List.length_pos.2 (List.ne_nil_of_mem hmem)
      simp only [List.length_cons, h1]
      omega
    · intro x hx
      rcases List.mem_cons.1 hx with hx | hx
      · exact Or.inl hx
      · exact Or.inr (List.mem_of_mem_erase hx)
  · rcases dbcacheSet_cases c k hmem with ⟨hlt, heq⟩ | ⟨hfull, d, e, hde, heq⟩ |
      ⟨hfull, hnil, heq⟩
    · rw [heq]
      refine ⟨rfl, rfl, rfl, List.nodup_cons.2 ⟨hmem, hnd⟩, by simpa using hlt,
        List.mem_cons_self k _, ?_⟩
      intro x hx
      rcases List.mem_cons.1 hx with hx | hx
      · exact Or.inl hx
      · exact Or.inr hx
    · rw [heq]
      have hndd : d.Nodup := by
        rw [hde] at hnd; exact hnd.of_append_left
      have hkd : k ∉ d := fun hx => hmem (hde ▸ List.mem_append_left _ hx)
      have hldb : d.length + 1 = c.db.length := by rw [hde]; simp
      refine ⟨rfl, rfl, rfl, List.nodup_cons.2 ⟨hkd, hndd⟩, by simp; omega,
        List.mem_cons_self k _, ?_⟩
      intro x hx
      rcases List.mem_cons.1 hx with hx | hx
      · exact Or.inl hx
      · exact Or.inr (hde ▸ List.mem_append_left _ hx)
    · rw [hnil] at hfull
      exact absurd hpos (by simpa using hfull)

/-- The Memory Tier eviction hook has the same effect as `dbcacheSet` on
the tiers (it additionally writes the record, touching only the store and
the log). -/
theorem onRemoveFromRam_spec (enc : V → B) (c : LDB K V B) (k : K) (v : V)
    (hpos : 0 < c.dbsize) (hnd : c.db.Nodup) (hlen : c.db.length ≤ c.dbsize) :
    (onRemoveFromRam enc c k v).ram = c.ram ∧
    (onRemoveFromRam enc c k v).ramsize = c.ramsize ∧
    (onRemoveFromRam enc c k v).dbsize = c.dbsize ∧
    (onRemoveFromRam enc c k v).db.Nodup ∧
    (onRemoveFromRam enc c k v).db.length ≤ c.dbsize ∧
    k ∈ (onRemoveFromRam enc c k v).db ∧
    (∀ x ∈ (onRemoveFromRam enc c k v).db, x = k ∨ x ∈ c.db) :=
  dbcacheSet_spec c k hpos hnd hlen

/-- A recency refresh of a present key preserves the invariant. -/
theorem touch_inv (c : LDB K V B) (k : K) (v : V)
    (hmem : k ∈ ramKeys c) (hInv : Inv c) :
    Inv { c with ram := (k, v) :: ramErase c.ram k } := by
  obtain ⟨hndr, hndd, hdisj, hlenr, hlend⟩ := hInv
  have hkeys : (((k, v) :: ramErase c.ram k).map Prod.fst) =
      k :: (ramKeys c).erase k := by
    simp [keys_ramErase, ramKeys]
  refine ⟨?_, hndd, ?_, ?_, hlend⟩
  · show (((k, v) :: ramErase c.ram k).map Prod.fst).Nodup
    rw [hkeys]
    exact List.nodup_cons.2 ⟨fun hx => ((hndr.mem_erase_iff).1 hx).1 rfl, hndr.erase k⟩
  · intro x hx
    have hx' : x ∈ k :: (ramKeys c).erase k := by
      have : x ∈ ((k, v) :: ramErase c.ram k).map Prod.fst := hx
      rwa [hkeys] at this
    rcases List.mem_cons.1 hx' with hx' | hx'
    · exact hx' ▸ hdisj k hmem
    · exact hdisj x (List.mem_of_mem_erase hx')
  · show ((k, v) :: ramErase c.ram k).length ≤ c.ramsize
    have h1 : (ramErase c.ram k).length = c.ram.length - 1 := length_ramErase c.ram k hmem
    have h2 : 0 < c.ram.length := by
      rcases List.mem_map.1 hmem with ⟨p, hp, _⟩
      exact List.length_pos.2 (List.ne_nil_of_mem hp)
    simp only [List.length_cons, h1]
    omega

/-- Memory Tier insertion preserves the invariant for a key not currently
tracked by the Ghost Tier, keeping both capacities. -/
theorem ramcacheSet_inv (enc : V → B) (c : LDB K V B) (k : K) (v : V)
    (hr : 0 < c.ramsize) (hd : 0 < c.dbsize) (hInv : Inv c) (hk : k ∉ c.db) :
    Inv (ramcacheSet enc c k v) ∧ (ramcacheSet enc c k v).ramsize = c.ramsize ∧
    (ramcacheSet enc c k v).dbsize = c.dbsize := by
  obtain ⟨hndr, hndd, hdisj, hlenr, hlend⟩ := hInv
  rcases ramcacheSet_cases enc c k v with ⟨hmem, heq⟩ | ⟨hmem, hlt, heq⟩ |
    ⟨hmem, hfull, r, e, hre, heq⟩ | ⟨hmem, hfull, hnil, heq⟩
  · rw [heq]
    exact ⟨touch_inv c k v hmem ⟨hndr, hndd, hdisj, hlenr, hlend⟩, rfl, rfl⟩
  · rw [heq]
    refine ⟨⟨?_, hndd, ?_, ?_, hlend⟩, rfl, rfl⟩
    · exact List.nodup_cons.2 ⟨hmem, hndr⟩
    · intro x hx
      rcases List.mem_cons.1 hx with hx | hx
      · exact hx ▸ hk
      · exact hdisj x hx
    · simpa using hlt
  · have hspec := onRemoveFromRam_spec enc c e.1 e.2 hd hndd hlend
    rw [heq]
    have hkeys : ramKeys c = r.map Prod.fst ++ [e.1] := by
      rw [ramKeys, hre]; simp
    have hsplit := List.nodup_append.1 (hkeys ▸ hndr)
    have hner : e.1 ∉ r.map Prod.fst := fun hx =>
      hsplit.2.2 hx (List.mem_singleton_self e.1)
    have hkr : k ∉ r.map Prod.fst := fun hx =>
      hmem (hkeys ▸ List.mem_append_left _ hx)
    have hke : k ≠ e.1 := fun hx =>
      hmem (hkeys ▸ List.mem_append_right _ (hx ▸ List.mem_singleton_self e.1))
    refine ⟨⟨?_, hspec.2.2.2.1, ?_, ?_, ?_⟩, hspec.2.1, hspec.2.2.1⟩
    · show (((k, v) :: r).map Prod.fst).Nodup
      simpa using List.nodup_cons.2 ⟨hkr, hsplit.1⟩
    · intro x hx hxdb
      have hx' : x ∈ k :: r.map Prod.fst := hx
      have hxdb' : x ∈ (onRemoveFromRam enc c e.1 e.2).db := hxdb
      rcases hspec.2.2.2.2.2.2 x hxdb' with hxe | hxc
      · rcases List.mem_cons.1 hx' with h | h
        · exact hke (h.symm.trans hxe)
        · exact hner (hxe ▸ h)
      · rcases List.mem_cons.1 hx' with h | h
        · exact hk (h ▸ hxc)
        · exact hdisj x (hkeys ▸ List.mem_append_left _ h) hxc
    · show ((k, v) :: r).length ≤ (onRemoveFromRam enc c e.1 e.2).ramsize
      rw [hspec.2.1]
      have hlen1 : c.ram.length = r.length + 1 := by rw [hre]; simp
      simp only [List.length_cons]
      omega
    · show (onRemoveFromRam enc c e.1 e.2).db.length ≤
        (onRemoveFromRam enc c e.1 e.2).dbsize
      rw [hspec.2.2.1]
      exact hspec.2.2.2.2.1
  · rw [hnil] at hfull
    exact absurd hr (by simpa using hfull)

/-- Removing a key from the Ghost Tier preserves the invariant. -/
theorem dbErase_inv (c : LDB K V B) (k : K) (hInv : Inv c) :
    Inv { c with db := c.db.erase k } := by
  obtain ⟨hndr, hndd, hdisj, hlenr, hlend⟩ := hInv
  refine ⟨hndr, hndd.erase k, ?_, hlenr, ?_⟩
  · intro x hx hxdb
    exact hdisj x hx (List.mem_of_mem_erase hxdb)
  · exact le_trans (List.erase_sublist k c.db).length_le hlend

/-- `__setitem__` preserves the invariant and the capacities. -/
theorem setOp_inv (enc : V → B) (c : LDB K V B) (k : K) (v : V)
    (hr : 0 < c.ramsize) (hd : 0 < c.dbsize) (hInv : Inv c) :
    Inv (setOp enc c k v) ∧ (setOp enc c k v).ramsize = c.ramsize ∧
    (setOp enc c k v).dbsize = c.dbsize := by
  unfold setOp
  by_cases hmem : k ∈ c.db
  · rw [if_pos hmem]
    have h1 : Inv (ldbDelete { c with db := c.db.erase k } k) :=
      dbErase_inv c k hInv
    have h2 : k ∉ (ldbDelete { c with db := c.db.erase k } k).db := by
      show k ∉ c.db.erase k
      exact fun hx => ((hInv.2.1.mem_erase_iff).1 hx).1 rfl
    exact ramcacheSet_inv enc _ k v hr hd h1 h2
  · rw [if_neg hmem]
    exact ramcacheSet_inv enc c k v hr hd hInv hmem

/-- `__getitem__` preserves the invariant and the capacities. -/
theorem getItem_inv (enc : V → B) (dec : B → Option V) (c : LDB K V B) (k : K)
    (hr : 0 < c.ramsize) (hd : 0 < c.dbsize) (hInv : Inv c) :
    Inv (getItem enc dec c k).2 ∧ (getItem enc dec c k).2.ramsize = c.ramsize ∧
    (getItem enc dec c k).2.dbsize = c.dbsize := by
  unfold getItem
  rcases hl : lookupV c.ram k with _ | v
  · by_cases hmem : k ∈ c.db
    · rw [if_pos hmem]
      have h1 : Inv { c with db := c.db.erase k } := dbErase_inv c k hInv
      rcases hs : c.store k with _ | b
      · simp only [ldbGetLog, hs]
        exact ⟨h1, by trivial, by trivial⟩
      · simp only [ldbGetLog, hs]
        rcases hdec : dec b with _ | v
        · exact ⟨h1, by trivial, by trivial⟩
        · have h2 : Inv (ldbDelete
              { { c with db := c.db.erase k } with
                evs := ({ c with db := c.db.erase k } : LDB K V B).evs ++
                  [StoreOp.get k] } k) := h1
          have h3 : k ∉ c.db.erase k :=
            fun hx => ((hInv.2.1.mem_erase_iff).1 hx).1 rfl
          exact ramcacheSet_inv enc _ k v hr hd h2 h3
    · rw [if_neg hmem]
      exact ⟨hInv, rfl, rfl⟩
  · have hmem : k ∈ ramKeys c := mem_keys_of_lookupV c.ram k v hl
    exact ⟨touch_inv c k v hmem hInv, rfl, rfl⟩

/-- `__delitem__` preserves the invariant and the capacities. -/
theorem delOp_inv (c : LDB K V B) (k : K) (hInv : Inv c) :
    Inv (delOp c k).2 ∧ (delOp c k).2.ramsize = c.ramsize ∧
    (delOp c k).2.dbsize = c.dbsize := by
  obtain ⟨hndr, hndd, hdisj, hlenr, hlend⟩ := hInv
  unfold delOp
  by_cases hmem : k ∈ ramKeys c
  · rw [if_pos hmem]
    refine ⟨⟨?_, hndd, ?_, ?_, hlend⟩, rfl, rfl⟩
    · show ((ramErase c.ram k).map Prod.fst).Nodup
      rw [keys_ramErase]
      exact hndr.erase k
    · intro x hx
      have hx' : x ∈ (ramKeys c).erase k := by
        have : x ∈ (ramErase c.ram k).map Prod.fst := hx
        rwa [keys_ramErase] at this
      exact hdisj x (List.mem_of_mem_erase hx')
    · exact le_trans (List.eraseP_sublist c.ram).length_le hlenr
  · rw [if_neg hmem]
    exact ⟨⟨hndr, hndd, hdisj, hlenr, hlend⟩, rfl, rfl⟩

/-- The store-deletion loop of `clear` leaves the tiers and capacities
untouched. -/
theorem foldl_ldbDelete_tiers (l : List K) :
    ∀ c : LDB K V B, (l.foldl ldbDelete c).ram = c.ram ∧
      (l.foldl ldbDelete c).db = c.db ∧
      (l.foldl ldbDelete c).ramsize = c.ramsize ∧
      (l.foldl ldbDelete c).dbsize = c.dbsize := by
  induction l with
  | nil => exact fun c => ⟨rfl, rfl, rfl, rfl⟩
  | cons a t ih =>
    intro c
    simpa using ih (ldbDelete c a)

/-- `clear` preserves the invariant and the capacities. -/
theorem clearOp_inv (c : LDB K V B) (ramonly : Bool) (hInv : Inv c) :
    Inv (clearOp c ramonly) ∧ (clearOp c ramonly).ramsize = c.ramsize ∧
    (clearOp c ramonly).dbsize = c.dbsize := by
  obtain ⟨hndr, hndd, hdisj, hlenr, hlend⟩ := hInv
  unfold clearOp
  cases ramonly with
  | true =>
    refine ⟨⟨List.nodup_nil, hndd, ?_, by simp, hlend⟩, rfl, rfl⟩
    intro x hx
    exact absurd hx (List.not_mem_nil x)
  | false =>
    have h := foldl_ldbDelete_tiers c.db c
    refine ⟨⟨List.nodup_nil, List.nodup_nil, ?_, by simp, by simp⟩, h.2.2.1, h.2.2.2⟩
    intro x hx
    exact absurd hx (List.not_mem_nil x)

/-- Every step of `flush`'s loop preserves Ghost Tier well-formedness and
leaves the Memory Tier and capacities untouched. -/
theorem flushFold_db (enc : V → B) (l : List (K × V)) :
    ∀ c : LDB K V B, 0 < c.dbsize → c.db.Nodup → c.db.length ≤ c.dbsize →
      (l.foldl (flushStep enc) c).db.Nodup ∧
      (l.foldl (flushStep enc) c).db.length ≤ c.dbsize ∧
      (l.foldl (flushStep enc) c).ram = c.ram ∧
      (l.foldl (flushStep enc) c).ramsize = c.ramsize ∧
      (l.foldl (flushStep enc) c).dbsize = c.dbsize := by
  induction l with
  | nil => exact fun c _ hnd hlen => ⟨hnd, hlen, rfl, rfl, rfl⟩
  | cons p t ih =>
    intro c hpos hnd hlen
    have hstep := dbcacheSet_spec c p.1 hpos hnd hlen
    have hstep' : (flushStep enc c p).db.Nodup ∧
        (flushStep enc c p).db.length ≤ (flushStep enc c p).dbsize ∧
        (flushStep enc c p).ram = c.ram ∧
        (flushStep enc c p).ramsize = c.ramsize ∧
        (flushStep enc c p).dbsize = c.dbsize := by
      refine ⟨hstep.2.2.2.1, ?_, hstep.1, hstep.2.1, hstep.2.2.1⟩
      show (dbcacheSet c p.1).db.length ≤ (dbcacheSet c p.1).dbsize
      rw [hstep.2.2.1]
      exact hstep.2.2.2.2.1
    have hrec := ih (flushStep enc c p)
      (by rw [hstep'.2.2.2.2]; exact hpos) hstep'.1
      (by rw [hstep'.2.2.2.2]; exact hstep'.2.1.trans_eq hstep'.2.2.2.2)
    refine ⟨hrec.1, ?_, ?_, ?_, ?_⟩
    · rw [List.foldl_cons]
      exact hrec.2.1.trans_eq hstep'.2.2.2.2
    · rw [List.foldl_cons, hrec.2.2.1, hstep'.2.2.1]
    · rw [List.foldl_cons, hrec.2.2.2.1, hstep'.2.2.2.1]
    · rw [List.foldl_cons, hrec.2.2.2.2, hstep'.2.2.2.2]

/-- `flush` preserves the invariant and the capacities. -/
theorem flushOp_inv (enc : V → B) (c : LDB K V B)
    (hd : 0 < c.dbsize) (hInv : Inv c) :
    Inv (flushOp enc c) ∧ (flushOp enc c).ramsize = c.ramsize ∧
    (flushOp enc c).dbsize = c.dbsize := by
  obtain ⟨hndr, hndd, hdisj, hlenr, hlend⟩ := hInv
  have h := flushFold_db enc c.ram c hd hndd hlend
  unfold flushOp
  refine ⟨⟨List.nodup_nil, h.1, ?_, by simp, ?_⟩, h.2.2.2.1, h.2.2.2.2⟩
  · intro x hx
    exact absurd hx (List.not_mem_nil x)
  · show (c.ram.foldl (flushStep enc) c).db.length ≤
      (c.ram.foldl (flushStep enc) c).dbsize
    rw [h.2.2.2.2]
    exact h.2.1

/-- Every public operation preserves the invariant and the capacities. -/
theorem applyOp_inv (enc : V → B) (dec : B → Option V) (c : LDB K V B)
    (op : Op K V) (hr : 0 < c.ramsize) (hd : 0 < c.dbsize) (hInv : Inv c) :
    Inv (applyOp enc dec c op) ∧ (applyOp enc dec c op).ramsize = c.ramsize ∧
    (applyOp enc dec c op).dbsize = c.dbsize := by
  cases op with
  | set k v => exact setOp_inv enc c k v hr hd hInv
  | get k => exact getItem_inv enc dec c k hr hd hInv
  | del k => exact delOp_inv c k hInv
  | flush => exact flushOp_inv enc c hd hInv
  | clear b => exact clearOp_inv c b hInv
  | iter => exact ⟨hInv, rfl, rfl⟩

/-- Any sequence of public operations preserves the invariant and the
capacities. -/
theorem runOps_inv (enc : V → B) (dec : B → Option V) (ops : List (Op K V)) :
    ∀ c : LDB K V B, 0 < c.ramsize → 0 < c.dbsize → Inv c →
      Inv (runOps enc dec c ops) ∧
      (runOps enc dec c ops).ramsize = c.ramsize ∧
      (runOps enc dec c ops).dbsize = c.dbsize := by
  induction ops with
  | nil => exact fun c _ _ hInv => ⟨hInv, rfl, rfl⟩
  | cons op t ih =>
    intro c hr hd hInv
    have hstep := applyOp_inv enc dec c op hr hd hInv
    have hrec := ih (applyOp enc dec c op)
      (by rw [hstep.2.1]; exact hr) (by rw [hstep.2.2]; exact hd) hstep.1
    exact ⟨hrec.1, hrec.2.1.trans hstep.2.1, hrec.2.2.trans hstep.2.2⟩

omit [DecidableEq K] in
/-- A freshly constructed cache satisfies the invariant. -/
theorem initState_inv (rs ds : Nat) : Inv (initState rs ds : LDB K V B) := by
  refine ⟨List.nodup_nil, List.nodup_nil, ?_, by simp [initState], by simp [initState]⟩
  intro x hx
  exact absurd hx (List.not_mem_nil x)

/-! ### Computation lemmas for `__getitem__` -/

/-- A Memory Tier hit returns the stored value and refreshes recency. -/
theorem getItem_ram_hit (enc : V → B) (dec : B → Option V) (c : LDB K V B)
    (k : K) (v : V) (h : lookupV c.ram k = some v) :
    getItem enc dec c k = (Res.ok v, { c with ram := (k, v) :: ramErase c.ram k }) := by
  unfold getItem
  rw [h]

/-- A Ghost Tier hit whose record decodes successfully returns the decoded
value. -/
theorem getItem_db_hit (enc : V → B) (dec : B → Option V) (c : LDB K V B)
    (k : K) (b : B) (v : V) (h0 : lookupV c.ram k = none) (h1 : k ∈ c.db)
    (h2 : c.store k = some b) (h3 : dec b = some v) :
    (getItem enc dec c k).1 = Res.ok v := by
  unfold getItem
  rw [h0]
  simp only [ldbGetLog, if_pos h1]
  have h2' : ({ c with db := c.db.erase k } : LDB K V B).store k = some b := h2
  rw [h2']
  simp only [h3]

/-- A Ghost Tier hit whose record fails to decode: the failure is
returned, the Ghost Tier entry is already gone, and the store is
untouched (only a `Get` was performed). -/
theorem getItem_decode_fail (enc : V → B) (dec : B → Option V) (c : LDB K V B)
    (k : K) (b : B) (h0 : lookupV c.ram k = none) (h1 : k ∈ c.db)
    (h2 : c.store k = some b) (h3 : dec b = none) :
    getItem enc dec c k =
      (Res.decodeErr,
        { c with db := c.db.erase k, evs := c.evs ++ [StoreOp.get k] }) := by
  unfold getItem
  rw [h0]
  simp only [ldbGetLog, if_pos h1]
  have h2' : ({ c with db := c.db.erase k } : LDB K V B).store k = some b := h2
  rw [h2']
  simp only [h3]

/-- A miss on both tiers raises `KeyError` and leaves the state
untouched. -/
theorem getItem_miss (enc : V → B) (dec : B → Option V) (c : LDB K V B)
    (k : K) (h0 : k ∉ ramKeys c) (h1 : k ∉ c.db) :
    getItem enc dec c k = (Res.notFound, c) := by
  unfold getItem
  rw [lookupV_eq_none c.ram k h0]
  simp only [if_neg h1]

/-! ### The flush loop -/

/-- Main lemma about `flush`'s loop: processing the entry list `l`
(keys disjoint from the current Ghost Tier, no duplicates) into a Ghost
Tier of shape `front ++ rest` with enough capacity for `front` plus all
of `l` yields a Ghost Tier holding all keys of `l` in front of `front`
and a leftover suffix of `rest`; every processed key has its record in
the store, and records of keys neither processed nor evictable are
untouched. -/
theorem flush_go (enc : V → B) (l : List (K × V)) :
    ∀ (c : LDB K V B) (front rest : List K),
      c.db = front ++ rest →
      front.length + l.length ≤ c.dbsize →
      c.db.length ≤ c.dbsize →
      (l.map Prod.fst).Nodup →
      (∀ p ∈ l, p.1 ∉ c.db) →
      ∃ rest',
        (l.foldl (flushStep enc) c).db =
          (l.map Prod.fst).reverse ++ front ++ rest' ∧
        (∀ x ∈ rest', x ∈ rest) ∧
        (∀ p ∈ l, (l.foldl (flushStep enc) c).store p.1 = some (enc p.2)) ∧
        (∀ k, k ∉ l.map Prod.fst → k ∉ rest →
          (l.foldl (flushStep enc) c).store k = c.store k) := by
  induction l with
  | nil =>
    intro c front rest hdb _ _ _ _
    exact ⟨rest, by simpa using hdb, fun x hx => hx, by simp, fun k _ _ => rfl⟩
  | cons p t ih =>
    intro c front rest hdb hcap hlen hnd hfresh
    have hp1 : p.1 ∉ c.db := hfresh p (List.mem_cons_self p t)
    have hpt : p.1 ∉ t.map Prod.fst := (List.nodup_cons.1 (by simpa using hnd)).1
    have hndt : (t.map Prod.fst).Nodup := (List.nodup_cons.1 (by simpa using hnd)).2
    rcases dbcacheSet_cases c p.1 hp1 with ⟨hlt, heq⟩ | ⟨hfull, d, e, hde, heq⟩ |
      ⟨hfull, hnil, heq⟩
    · -- room left in the Ghost Tier: plain insertion at the front
      have hstep : flushStep enc c p =
          ldbPut { c with db := p.1 :: c.db } p.1 (enc p.2) := by
        rw [flushStep, heq]
      obtain ⟨rest', hdb2, hsub, hstores, hframe⟩ :=
        ih (flushStep enc c p) (p.1 :: front) rest
          (by rw [hstep]; show p.1 :: c.db = (p.1 :: front) ++ rest; rw [hdb]; rfl)
          (by rw [hstep]
              show (p.1 :: front).length + t.length ≤ c.dbsize
              simp only [List.length_cons] at hcap ⊢
              omega)
          (by rw [hstep]
              show (p.1 :: c.db).length ≤ c.dbsize
              simp only [List.length_cons]
              omega)
          hndt
          (by intro q hq
              rw [hstep]
              show q.1 ∉ p.1 :: c.db
              intro hmem
              rcases List.mem_cons.1 hmem with h | h
              · exact hpt (h ▸ List.mem_map.2 ⟨q, hq, rfl⟩)
              · exact hfresh q (List.mem_cons_of_mem p hq) h)
      refine ⟨rest', ?_, fun x hx => hsub x hx, ?_, ?_⟩
      · rw [List.foldl_cons, hdb2]
        simp [List.append_assoc]
      · intro q hq
        rcases List.mem_cons.1 hq with h | h
        · have hfr : (t.foldl (flushStep enc) (flushStep enc c p)).store q.1 =
              (flushStep enc c p).store q.1 := by
            refine hframe q.1 ?_ ?_
            · rw [h]; exact hpt
            · rw [h]; intro hr; exact hp1 (hdb ▸ List.mem_append_right front hr)
          rw [List.foldl_cons, hfr, h, hstep]
          exact storePut_self _ _ _
        · rw [List.foldl_cons]
          exact hstores q h
      · intro k hk1 hk2
        have hk1' : k ∉ t.map Prod.fst := fun h => hk1 (List.mem_cons_of_mem _ h)
        have hkp : k ≠ p.1 := fun h => hk1 (h ▸ List.mem_cons_self _ _)
        rw [List.foldl_cons, hframe k hk1' hk2, hstep]
        exact storePut_other _ _ _ _ hkp
    · -- Ghost Tier full: its LRU key (the last of `rest`) is evicted first
      have hrest : rest ≠ [] := by
        intro hr
        rw [hr, List.append_nil] at hdb
        have : c.db.length ≤ front.length := by rw [hdb]
        simp only [List.length_cons] at hcap
        omega
      rcases List.eq_nil_or_concat rest with hr | ⟨r', x, hrx⟩
      · exact absurd hr hrest
      rw [List.concat_eq_append] at hrx
      have hde' : (front ++ r') ++ [x] = d ++ [e] := by
        rw [← hde, hdb, hrx, List.append_assoc]
      have hinj := List.append_inj' hde' rfl
      have hdfr : d = front ++ r' := hinj.1.symm
      have hex : e = x := by
        have := hinj.2
        simpa using this.symm
      have hstep : flushStep enc c p =
          ldbPut { c with db := p.1 :: d, store := storeErase c.store e,
                          evs := c.evs ++ [StoreOp.del e] } p.1 (enc p.2) := by
        rw [flushStep, heq]
      have hedb : e ∈ c.db := by
        rw [hde]; exact List.mem_append_right d (List.mem_singleton_self e)
      have herest : e ∈ rest := by
        rw [hrx, hex]; exact List.mem_append_right r' (List.mem_singleton_self x)
      obtain ⟨rest', hdb2, hsub, hstores, hframe⟩ :=
        ih (flushStep enc c p) (p.1 :: front) r'
          (by rw [hstep]; show p.1 :: d = (p.1 :: front) ++ r'; rw [hdfr]; rfl)
          (by rw [hstep]
              show (p.1 :: front).length + t.length ≤ c.dbsize
              simp only [List.length_cons] at hcap ⊢
              omega)
          (by rw [hstep]
              show (p.1 :: d).length ≤ c.dbsize
              have : c.db.length = d.length + 1 := by rw [hde]; simp
              simp only [List.length_cons]; omega)
          hndt
          (by intro q hq
              rw [hstep]
              show q.1 ∉ p.1 :: d
              intro hmem
              rcases List.mem_cons.1 hmem with h | h
              · exact hpt (h ▸ List.mem_map.2 ⟨q, hq, rfl⟩)
              · exact hfresh q (List.mem_cons_of_mem p hq)
                  (hde ▸ List.mem_append_left [e] h))
      refine ⟨rest', ?_, ?_, ?_, ?_⟩
      · rw [List.foldl_cons, hdb2]
        simp [List.append_assoc]
      · intro y hy
        have : y ∈ r' := hsub y hy
        rw [hrx]
        exact List.mem_append_left [x] this
      · intro q hq
        rcases List.mem_cons.1 hq with h | h
        · have hfr : (t.foldl (flushStep enc) (flushStep enc c p)).store q.1 =
              (flushStep enc c p).store q.1 := by
            refine hframe q.1 ?_ ?_
            · rw [h]; exact hpt
            · rw [h]
              intro hrmem
              exact hp1 (hdb ▸ List.mem_append_right front
                (hrx ▸ List.mem_append_left [x] hrmem))
          rw [List.foldl_cons, hfr, h, hstep]
          exact storePut_self _ _ _
        · rw [List.foldl_cons]
          exact hstores q h
      · intro k hk1 hk2
        have hk1' : k ∉ t.map Prod.fst := fun h => hk1 (List.mem_cons_of_mem _ h)
        have hkp : k ≠ p.1 := fun h => hk1 (h ▸ List.mem_cons_self _ _)
        have hkr' : k ∉ r' := fun h => hk2 (hrx ▸ List.mem_append_left [x] h)
        have hke : k ≠ e := fun h => hk2 (h ▸ herest)
        rw [List.foldl_cons, hframe k hk1' hkr', hstep]
        show storePut (storeErase c.store e) p.1 (enc p.2) k = c.store k
        rw [storePut_other _ _ _ _ hkp, storeErase_other _ _ _ hke]
    · -- capacity zero and Ghost Tier empty: impossible given the capacity
      -- needed for the entries still to flush
      rw [hnil] at hfull
      simp only [List.length_cons] at hcap
      simp only [List.length_nil] at hfull
      omega

/-! ### The claims -/

/-- C2.  Disjointness invariant: for every key `k` and every finite
sequence of public operations (set, get, delete, flush, clear, iteration)
applied to an initially empty cache (with the positive capacities the
constructor requires), after each operation completes `k` is never
simultaneously present in the Memory Tier and the Ghost Tier.  (The
sequence `ops` is arbitrary, so the property holds after every prefix,
i.e. after each operation.) -/
theorem claim2_disjointness (enc : V → B) (dec : B → Option V)
    (rs ds : Nat) (ops : List (Op K V)) (k : K) (hr : 0 < rs) (hd : 0 < ds) :
    ¬ (k ∈ ramKeys (runOps enc dec (initState rs ds) ops) ∧
      k ∈ (runOps enc dec (initState rs ds) ops).db) := by
  intro hand
  have h := (runOps_inv enc dec ops (initState rs ds) hr hd (initState_inv rs ds)).1
  exact h.2.2.1 k hand.1 hand.2

/-- Witness for C2: a concrete run of five operations on a 2/2 cache,
checked for key 1. -/
theorem claim2_disjointness_witness :
    ¬ (1 ∈ ramKeys (runOps natEnc natDec (initState 2 2)
        [Op.set 1 10, Op.set 2 20, Op.set 3 30, Op.get 1, Op.del 2]) ∧
      1 ∈ (runOps natEnc natDec (initState 2 2)
        [Op.set 1 10, Op.set 2 20, Op.set 3 30, Op.get 1, Op.del 2]).db) :=
  claim2_disjointness natEnc natDec 2 2
    [Op.set 1 10, Op.set 2 20, Op.set 3 30, Op.get 1, Op.del 2] 1
    (by decide) (by decide)

/-- C7.  Capacity bound invariant: for a cache constructed with positive
capacities `ramsize` and `dbsize`, after every public operation completes
(including any triggered eviction cascade), the Memory Tier holds at most
`ramsize` entries and the Ghost Tier holds at most `dbsize` entries. -/
theorem claim7_capacity_bound (enc : V → B) (dec : B → Option V)
    (rs ds : Nat) (ops : List (Op K V)) (hr : 0 < rs) (hd : 0 < ds) :
    (runOps enc dec (initState rs ds : LDB K V B) ops).ram.length ≤ rs ∧
    (runOps enc dec (initState rs ds : LDB K V B) ops).db.length ≤ ds := by
  obtain ⟨hInv, hrs, hds⟩ :=
    runOps_inv enc dec ops (initState rs ds) hr hd (initState_inv rs ds)
  constructor
  · have h := hInv.2.2.2.1
    rw [hrs] at h
    exact h
  · have h := hInv.2.2.2.2
    rw [hds] at h
    exact h

/-- Witness for C7: the five-set cascade run on a 2/2 cache. -/
theorem claim7_capacity_bound_witness :
    (runOps natEnc natDec (initState 2 2 : LDB Nat Nat Nat)
      [Op.set 1 11, Op.set 2 12, Op.set 3 13, Op.set 4 14, Op.set 5 15]).ram.length ≤ 2 ∧
    (runOps natEnc natDec (initState 2 2 : LDB Nat Nat Nat)
      [Op.set 1 11, Op.set 2 12, Op.set 3 13, Op.set 4 14, Op.set 5 15]).db.length ≤ 2 :=
  claim7_capacity_bound natEnc natDec 2 2
    [Op.set 1 11, Op.set 2 12, Op.set 3 13, Op.set 4 14, Op.set 5 15]
    (by decide) (by decide)

/-- C6.  Round-trip: for every cache state and every key `k` and value
`v`, `set(k, v)` followed immediately by `get(k)` returns `v`, whether or
not an eviction cascade occurred in between.  (The source establishes
`k` as the most-recently-used Memory Tier entry at the end of `set`, so
the immediate `get` hits the Memory Tier; no decoding assumption is even
needed, which also covers the claim's decode-inverts-encode premise.) -/
theorem claim6_set_get_roundtrip (enc : V → B) (dec : B → Option V)
    (c : LDB K V B) (k : K) (v : V) :
    (getItem enc dec (setOp enc c k v) k).1 = Res.ok v := by
  have key : ∀ c' : LDB K V B, ∃ t, (ramcacheSet enc c' k v).ram = (k, v) :: t := by
    intro c'
    rcases ramcacheSet_cases enc c' k v with ⟨_, heq⟩ | ⟨_, _, heq⟩ |
      ⟨_, _, r, e, _, heq⟩ | ⟨_, _, _, heq⟩ <;> rw [heq] <;> exact ⟨_, rfl⟩
  obtain ⟨t, ht⟩ :=
    key (if k ∈ c.db then ldbDelete { c with db := c.db.erase k } k else c)
  have hl : lookupV (setOp enc c k v).ram k = some v := by
    have hram : (setOp enc c k v).ram = (k, v) :: t := ht
    rw [hram]
    exact lookupV_cons_self t k v
  rw [getItem_ram_hit enc dec _ k v hl]

/-- C9.  For every cache state and every key absent from both tiers, the
defaulting lookup `get(key, default)` returns the supplied default
without raising and leaves the whole state — both tiers, the store, even
the operation log — unchanged. -/
theorem claim9_get_default_miss (enc : V → B) (dec : B → Option V)
    (c : LDB K V B) (k : K) (d : V) (h0 : k ∉ ramKeys c) (h1 : k ∉ c.db) :
    getOp enc dec c k d = (Res.ok d, c) := by
  unfold getOp
  rw [getItem_miss enc dec c k h0 h1]

/-- Witness for C9: key 7 is in neither tier of `exC3`; `get(7, 42)`
returns 42 and leaves the state untouched. -/
theorem claim9_get_default_miss_witness :
    getOp natEnc natDec exC3 7 42 = (Res.ok 42, exC3) :=
  claim9_get_default_miss natEnc natDec exC3 7 42 (by decide) (by decide)

/-- C10.  For every well-formed cache state in which `k` is already
present in the Memory Tier, `set(k, v)` replaces `k`'s value with `v` and
makes `k` most-recently-used (the new head of the recency list), evicts
nothing from either tier (the Memory Tier keys are preserved as a set and
the Ghost Tier is untouched), performs no read, write or delete on the
Persistent Store (the store map and the operation log are unchanged), and
leaves both tier sizes unchanged. -/
theorem claim10_set_present_frame (enc : V → B) (c : LDB K V B) (k : K) (v : V)
    (hmem : k ∈ ramKeys c) (hdb : k ∉ c.db) (hnd : (ramKeys c).Nodup) :
    setOp enc c k v = { c with ram := (k, v) :: ramErase c.ram k } ∧
    (setOp enc c k v).ram.length = c.ram.length ∧
    lookupV (setOp enc c k v).ram k = some v ∧
    (∀ x, x ∈ ramKeys (setOp enc c k v) ↔ x ∈ ramKeys c) ∧
    (setOp enc c k v).db = c.db ∧
    (setOp enc c k v).store = c.store ∧
    (setOp enc c k v).evs = c.evs := by
  have h1 : setOp enc c k v = { c with ram := (k, v) :: ramErase c.ram k } := by
    unfold setOp
    rw [if_neg hdb]
    rcases ramcacheSet_cases enc c k v with ⟨_, heq⟩ | ⟨hm, _, _⟩ |
      ⟨hm, _, _, _, _, _⟩ | ⟨hm, _, _, _⟩
    · exact heq
    all_goals exact absurd hmem hm
  have hpos : 0 < c.ram.length := by
    rcases List.mem_map.1 hmem with ⟨p, hp, _⟩
    exact List.length_pos.2 (List.ne_nil_of_mem hp)
  refine ⟨h1, ?_, ?_, ?_, by rw [h1], by rw [h1], by rw [h1]⟩
  · rw [h1]
    show ((k, v) :: ramErase c.ram k).length = c.ram.length
    simp only [List.length_cons, length_ramErase c.ram k hmem]
    omega
  · rw [h1]
    exact lookupV_cons_self _ k v
  · intro x
    rw [h1]
    show x ∈ ((k, v) :: ramErase c.ram k).map Prod.fst ↔ x ∈ ramKeys c
    have hkeys : ((k, v) :: ramErase c.ram k).map Prod.fst =
        k :: (ramKeys c).erase k := by
      simp [keys_ramErase, ramKeys]
    rw [hkeys]
    constructor
    · intro hx
      rcases List.mem_cons.1 hx with hx | hx
      · exact hx ▸ hmem
      · exact List.mem_of_mem_erase hx
    · intro hx
      by_cases hxk : x = k
      · exact hxk ▸ List.mem_cons_self k _
      · exact List.mem_cons_of_mem k ((hnd.mem_erase_iff).2 ⟨hxk, hx⟩)

/-- Witness for C10: key 3 is Memory Tier resident in `exC3`; resetting
it to 99 touches only the Memory Tier entry. -/
theorem claim10_set_present_frame_witness :
    setOp natEnc exC3 3 99 = { exC3 with ram := (3, 99) :: ramErase exC3.ram 3 } ∧
    (setOp natEnc exC3 3 99).ram.length = exC3.ram.length ∧
    lookupV (setOp natEnc exC3 3 99).ram 3 = some 99 ∧
    (∀ x, x ∈ ramKeys (setOp natEnc exC3 3 99) ↔ x ∈ ramKeys exC3) ∧
    (setOp natEnc exC3 3 99).db = exC3.db ∧
    (setOp natEnc exC3 3 99).store = exC3.store ∧
    (setOp natEnc exC3 3 99).evs = exC3.evs :=
  claim10_set_present_frame natEnc exC3 3 99 (by decide) (by decide) (by decide)

/-- C3.  The claim says `delete(key)` on a key present only in the Ghost
Tier removes it there and deletes the persisted record.  The code cannot
do this: the `except KeyError` handler of `__delitem__` runs
`del self.ramcache[key]` a second time (instead of `del self.dbcache[key]`),
which raises `KeyError` again before `self.ldb.Delete(key)` is reached.
Evaluated at the failing input (`exC3`, whose key 1 lives only in the
Ghost Tier with its record persisted): the delete reports `KeyError`
(NotFound) and leaves the Ghost Tier entry and the record in place,
contradicting the claim and the surrounding code's own intent. -/
theorem claim3_delete_ghost_branch_dead :
    1 ∉ ramKeys exC3 ∧ 1 ∈ exC3.db ∧ exC3.store 1 = some 10 ∧
    (delOp exC3 1).1 = Res.notFound ∧
    (delOp exC3 1).2.ram = exC3.ram ∧
    (delOp exC3 1).2.db = exC3.db ∧
    (delOp exC3 1).2.store 1 = some 10 ∧
    (delOp exC3 1).2.evs = exC3.evs := by decide

/-- Counterexample to C4 as stated: in the reachable state `exC4`, key 5
is in the Ghost Tier and its persisted record `99` makes the decode
function raise; `get(5)` propagates the decode failure, but the Ghost
Tier entry for 5 is **not** left unchanged — it has already been removed
(the record itself survives in the store). -/
theorem claim4_counterexample :
    5 ∈ exC4.db ∧ exC4.store 5 = some 99 ∧ natDecFragile 99 = none ∧
    (getItem natEnc natDecFragile exC4 5).1 = Res.decodeErr ∧
    5 ∉ (getItem natEnc natDecFragile exC4 5).2.db ∧
    (getItem natEnc natDecFragile exC4 5).2.store 5 = some 99 := by decide

/-- C4 (amended).  For every cache state in which key `k` is present in
the (duplicate-free) Ghost Tier with a persisted record whose bytes make
the caller-supplied decode function raise, `get(k)` propagates the decode
failure to the caller and leaves the persisted record for `k` (indeed the
whole store) and the Memory Tier unchanged, but the Ghost Tier entry for
`k` has already been removed (`del self.dbcache[key]` runs before the
record is read and decoded), so `k` ends up absent from both tiers while
its record is still in the store. -/
theorem claim4_corrupt_record_amended (enc : V → B) (dec : B → Option V)
    (c : LDB K V B) (k : K) (b : B) (hnd : c.db.Nodup) (h0 : k ∉ ramKeys c)
    (h1 : k ∈ c.db) (h2 : c.store k = some b) (h3 : dec b = none) :
    getItem enc dec c k =
      (Res.decodeErr,
        { c with db := c.db.erase k, evs := c.evs ++ [StoreOp.get k] }) ∧
    k ∉ (getItem enc dec c k).2.db ∧
    (getItem enc dec c k).2.store = c.store ∧
    (getItem enc dec c k).2.ram = c.ram := by
  have h := getItem_decode_fail enc dec c k b (lookupV_eq_none c.ram k h0) h1 h2 h3
  refine ⟨h, ?_, by rw [h], by rw [h]⟩
  rw [h]
  exact fun hx => ((hnd.mem_erase_iff).1 hx).1 rfl

/-- Witness for C4 (amended), instantiated at `exC4` and key 5. -/
theorem claim4_corrupt_record_amended_witness :
    getItem natEnc natDecFragile exC4 5 =
      (Res.decodeErr,
        { exC4 with db := exC4.db.erase 5, evs := exC4.evs ++ [StoreOp.get 5] }) ∧
    5 ∉ (getItem natEnc natDecFragile exC4 5).2.db ∧
    (getItem natEnc natDecFragile exC4 5).2.store = exC4.store ∧
    (getItem natEnc natDecFragile exC4 5).2.ram = exC4.ram :=
  claim4_corrupt_record_amended natEnc natDecFragile exC4 5 99
    (by decide) (by decide) (by decide) (by decide) (by decide)

/-- Counterexample to C5 as stated: the Memory Tier eviction hook does
not write the record before touching the Ghost Tier.  In the reachable
run `exC5run`, the fourth `set` evicts `(2, 20)` into the full Ghost Tier
`[1]`, and the emitted store operations are
`Delete 1` **before** `Put 2 20`; likewise, applying the hook's
Ghost-Tier-insertion step at the concrete state `exC5` (full Ghost Tier
`[7]`), the store after that step does not yet contain the record of the
evicted key 8, so the triggered Ghost eviction did not observe it. -/
theorem claim5_counterexample :
    exC5run.evs = [StoreOp.put 1 10] ∧
    (setOp natEnc exC5run 4 40).evs =
      [StoreOp.put 1 10, StoreOp.del 1, StoreOp.put 2 20] ∧
    (onRemoveFromRam natEnc exC5 8 80).evs = [StoreOp.del 7, StoreOp.put 8 80] ∧
    (dbcacheSet exC5 8).store 8 = none ∧ (dbcacheSet exC5 8).db = [8] ∧
    (dbcacheSet exC5 8).evs = [StoreOp.del 7] := by decide

/-- C5 (amended).  Whenever a `(key, value)` pair is evicted from the
Memory Tier, the hook first inserts the key into the Ghost Tier — any
Ghost Tier eviction triggered by that insertion deletes the coldest key's
record from a store that does not yet contain the evicted key's record —
and only then serializes the value and writes it to the Persistent Store:
the emitted store operations are the Ghost-insertion's deletions (if any)
followed by the `Put` of the evicted key's record, after which the key is
registered in the Ghost Tier and its record is in the store. -/
theorem claim5_evict_hook_order_amended (enc : V → B) (c : LDB K V B)
    (k : K) (v : V) :
    ∃ ds, (∀ e2 ∈ ds, ∃ x, e2 = StoreOp.del x) ∧
      (onRemoveFromRam enc c k v).evs = (c.evs ++ ds) ++ [StoreOp.put k (enc v)] ∧
      (dbcacheSet c k).evs = c.evs ++ ds ∧
      k ∈ (onRemoveFromRam enc c k v).db ∧
      (onRemoveFromRam enc c k v).store k = some (enc v) := by
  have hdb_evs : ∃ ds, (∀ e2 ∈ ds, ∃ x, e2 = StoreOp.del x) ∧
      (dbcacheSet c k).evs = c.evs ++ ds ∧ k ∈ (dbcacheSet c k).db := by
    by_cases hmem : k ∈ c.db
    · rw [dbcacheSet_mem c k hmem]
      exact ⟨[], by simp, by simp, List.mem_cons_self _ _⟩
    · rcases dbcacheSet_cases c k hmem with ⟨_, heq⟩ | ⟨_, d, e, _, heq⟩ |
        ⟨_, _, heq⟩ <;> rw [heq]
      · exact ⟨[], by simp, by simp, List.mem_cons_self _ _⟩
      · exact ⟨[StoreOp.del e], fun e2 he => ⟨e, by simpa using he⟩, rfl,
          List.mem_cons_self _ _⟩
      · exact ⟨[], by simp, by simp, List.mem_cons_self _ _⟩
  obtain ⟨ds, hds, hevs, hmem⟩ := hdb_evs
  refine ⟨ds, hds, ?_, hevs, hmem, storePut_self _ _ _⟩
  show (dbcacheSet c k).evs ++ [StoreOp.put k (enc v)] =
    (c.evs ++ ds) ++ [StoreOp.put k (enc v)]
  rw [hevs]

/-- Counterexample to C8 as stated: in the reachable state `exC8`
(ramsize 2 but dbsize 1, Memory Tier holding `[(2,20),(1,10)]`, decode
`some` trivially inverting the identity encode), `flush()` empties the
Memory Tier but the formerly-memory-resident key 2 is no longer
retrievable: the Ghost Tier overflowed during the flush and permanently
dropped it, so `get(2)` reports NotFound. -/
theorem claim8_counterexample :
    (2, 20) ∈ exC8.ram ∧
    (flushOp natEnc exC8).ram = [] ∧
    2 ∉ (flushOp natEnc exC8).db ∧
    (flushOp natEnc exC8).store 2 = none ∧
    (getItem natEnc natDec (flushOp natEnc exC8) 2).1 = Res.notFound := by decide

/-- C8 (amended).  For every well-formed cache state whose Memory Tier
occupancy does not exceed the Ghost Tier capacity `dbsize`, after
`flush()` completes the Memory Tier is empty and every key that was
resident in the Memory Tier immediately before the flush is still
retrievable via `get` with its value (now via the Ghost Tier / Persistent
Store fallback), assuming the decode function inverts the encode
function.  (Without the occupancy bound the Ghost Tier can overflow
during the flush and permanently drop flushed keys, as the
counterexample shows.) -/
theorem claim8_flush_drains_amended (enc : V → B) (dec : B → Option V)
    (c : LDB K V B) (hdec : ∀ v, dec (enc v) = some v)
    (hndr : (ramKeys c).Nodup)
    (hdisj : ∀ x, x ∈ ramKeys c → x ∉ c.db)
    (hlen : c.db.length ≤ c.dbsize)
    (hcap : c.ram.length ≤ c.dbsize) :
    (flushOp enc c).ram = [] ∧
    ∀ p ∈ c.ram, (getItem enc dec (flushOp enc c) p.1).1 = Res.ok p.2 := by
  obtain ⟨rest', hdb2, hsub, hstores, hframe⟩ :=
    flush_go enc c.ram c [] c.db rfl (by simpa using hcap) hlen hndr
      (fun p hp => hdisj p.1 (List.mem_map.2 ⟨p, hp, rfl⟩))
  refine ⟨rfl, ?_⟩
  intro p hp
  have hm : p.1 ∈ (flushOp enc c).db := by
    show p.1 ∈ (c.ram.foldl (flushStep enc) c).db
    rw [hdb2]
    exact List.mem_append_left _ (List.mem_append_left _
      (List.mem_reverse.2 (List.mem_map.2 ⟨p, hp, rfl⟩)))
  have hs : (flushOp enc c).store p.1 = some (enc p.2) := hstores p hp
  exact getItem_db_hit enc dec (flushOp enc c) p.1 (enc p.2) p.2 rfl hm hs (hdec p.2)

/-- C1.  Eviction-cascade correctness: starting from an empty cache with
`ramsize = 2`, `dbsize = 2`, performing `set(k1,v1) .. set(k5,v5)` on five
distinct keys leaves the Memory Tier holding exactly `[k5, k4]` (MRU
first), the Ghost Tier holding exactly `[k3, k2]`, and `k1` absent from
both tiers and permanently deleted from the Persistent Store (its record
is gone and a store `Delete` of `k1` was performed). -/
theorem claim1_cascade_correctness (enc : V → B)
    (k1 k2 k3 k4 k5 : K) (v1 v2 v3 v4 v5 : V)
    (h12 : k1 ≠ k2) (h13 : k1 ≠ k3) (h14 : k1 ≠ k4) (h15 : k1 ≠ k5)
    (h23 : k2 ≠ k3) (h24 : k2 ≠ k4) (h25 : k2 ≠ k5)
    (h34 : k3 ≠ k4) (h35 : k3 ≠ k5) (h45 : k4 ≠ k5) :
    ramKeys (fiveSets enc k1 k2 k3 k4 k5 v1 v2 v3 v4 v5) = [k5, k4] ∧
    (fiveSets enc k1 k2 k3 k4 k5 v1 v2 v3 v4 v5).db = [k3, k2] ∧
    k1 ∉ ramKeys (fiveSets enc k1 k2 k3 k4 k5 v1 v2 v3 v4 v5) ∧
    k1 ∉ (fiveSets enc k1 k2 k3 k4 k5 v1 v2 v3 v4 v5).db ∧
    (fiveSets enc k1 k2 k3 k4 k5 v1 v2 v3 v4 v5).store k1 = none ∧
    StoreOp.del k1 ∈ (fiveSets enc k1 k2 k3 k4 k5 v1 v2 v3 v4 v5).evs := by
  have e1 : setOp enc (initState 2 2 : LDB K V B) k1 v1 =
      { ramsize := 2, dbsize := 2, ram := [(k1, v1)], db := [],
        store := fun _ => none, evs := [] } := by
    simp [setOp, ramcacheSet, ramKeys, initState]
  have e2 : setOp enc
      ({ ramsize := 2, dbsize := 2, ram := [(k1, v1)], db := [],
         store := fun _ => none, evs := [] } : LDB K V B) k2 v2 =
      { ramsize := 2, dbsize := 2, ram := [(k2, v2), (k1, v1)], db := [],
        store := fun _ => none, evs := [] } := by
    simp [setOp, ramcacheSet, ramKeys, h12.symm]
  have e3 : setOp enc
      ({ ramsize := 2, dbsize := 2, ram := [(k2, v2), (k1, v1)], db := [],
         store := fun _ => none, evs := [] } : LDB K V B) k3 v3 =
      { ramsize := 2, dbsize := 2, ram := [(k3, v3), (k2, v2)], db := [k1],
        store := storePut (fun _ => none) k1 (enc v1),
        evs := [StoreOp.put k1 (enc v1)] } := by
    simp [setOp, ramcacheSet, ramKeys, onRemoveFromRam, dbcacheSet, ldbPut,
      h13.symm, h23.symm]
  have e4 : setOp enc
      ({ ramsize := 2, dbsize := 2, ram := [(k3, v3), (k2, v2)], db := [k1],
         store := storePut (fun _ => none) k1 (enc v1),
         evs := [StoreOp.put k1 (enc v1)] } : LDB K V B) k4 v4 =
      { ramsize := 2, dbsize := 2, ram := [(k4, v4), (k3, v3)], db := [k2, k1],
        store := storePut (storePut (fun _ => none) k1 (enc v1)) k2 (enc v2),
        evs := [StoreOp.put k1 (enc v1), StoreOp.put k2 (enc v2)] } := by
    simp [setOp, ramcacheSet, ramKeys, onRemoveFromRam, dbcacheSet, ldbPut,
      h14.symm, h24.symm, h34.symm, h12.symm]
  have e5 : setOp enc
      ({ ramsize := 2, dbsize := 2, ram := [(k4, v4), (k3, v3)], db := [k2, k1],
         store := storePut (storePut (fun _ => none) k1 (enc v1)) k2 (enc v2),
         evs := [StoreOp.put k1 (enc v1), StoreOp.put k2 (enc v2)] } : LDB K V B)
        k5 v5 =
      { ramsize := 2, dbsize := 2, ram := [(k5, v5), (k4, v4)], db := [k3, k2],
        store := storePut (storeErase
          (storePut (storePut (fun _ => none) k1 (enc v1)) k2 (enc v2)) k1)
          k3 (enc v3),
        evs := [StoreOp.put k1 (enc v1), StoreOp.put k2 (enc v2),
                StoreOp.del k1, StoreOp.put k3 (enc v3)] } := by
    simp [setOp, ramcacheSet, ramKeys, onRemoveFromRam, dbcacheSet, ldbPut,
      ldbDelete, h15.symm, h25.symm, h35.symm, h45.symm, h13.symm, h23.symm]
  have hfin : fiveSets enc k1 k2 k3 k4 k5 v1 v2 v3 v4 v5 =
      { ramsize := 2, dbsize := 2, ram := [(k5, v5), (k4, v4)], db := [k3, k2],
        store := storePut (storeErase
          (storePut (storePut (fun _ => none) k1 (enc v1)) k2 (enc v2)) k1)
          k3 (enc v3),
        evs := [StoreOp.put k1 (enc v1), StoreOp.put k2 (enc v2),
                StoreOp.del k1, StoreOp.put k3 (enc v3)] } := by
    rw [fiveSets, e1, e2, e3, e4, e5]
  rw [hfin]
  refine ⟨rfl, rfl, ?_, ?_, ?_, ?_⟩
  · show k1 ∉ ([(k5, v5), (k4, v4)] : List (K × V)).map Prod.fst
    simp [h14, h15]
  · show k1 ∉ [k3, k2]
    simp [h12, h13]
  · show storePut (storeErase
        (storePut (storePut (fun _ => none) k1 (enc v1)) k2 (enc v2)) k1)
        k3 (enc v3) k1 = none
    simp [storePut, storeErase, h13]
  · simp

/-- Witness for C1: keys 1–5 with values 11–15. -/
theorem claim1_cascade_correctness_witness :
    ramKeys (fiveSets natEnc 1 2 3 4 5 11 12 13 14 15) = [5, 4] ∧
    (fiveSets natEnc 1 2 3 4 5 11 12 13 14 15).db = [3, 2] ∧
    1 ∉ ramKeys (fiveSets natEnc 1 2 3 4 5 11 12 13 14 15) ∧
    1 ∉ (fiveSets natEnc 1 2 3 4 5 11 12 13 14 15).db ∧
    (fiveSets natEnc 1 2 3 4 5 11 12 13 14 15).store 1 = none ∧
    StoreOp.del 1 ∈ (fiveSets natEnc 1 2 3 4 5 11 12 13 14 15).evs :=
  claim1_cascade_correctness natEnc 1 2 3 4 5 11 12 13 14 15
    (by decide) (by decide) (by decide) (by decide) (by decide) (by decide)
    (by decide) (by decide) (by decide) (by decide)

/-- Witness for C8 (amended): flushing `exC8w` (2/2 cache holding keys 1
and 2 in memory) empties the Memory Tier and `get(1)` still returns 10. -/
theorem claim8_flush_drains_amended_witness :
    (flushOp natEnc exC8w).ram = [] ∧
    (1, 10) ∈ exC8w.ram ∧
    (getItem natEnc natDec (flushOp natEnc exC8w) 1).1 = Res.ok 10 :=
  ⟨(claim8_flush_drains_amended natEnc natDec exC8w (fun v => rfl)
      (by decide) (by decide) (by decide) (by decide)).1,
    by decide,
    (claim8_flush_drains_amended natEnc natDec exC8w (fun v => rfl)
      (by decide) (by decide) (by decide) (by decide)).2 (1, 10) (by decide)⟩

end Ldbcache
